import Mathlib

/-!
Verification development for the IntelliOS hybrid log-parsing and
topic-classification pipeline (the Python modules embedded in
src/backend/context.md: regex_parsers.py, llm_layer.py, config.py,
log_fetcher.py, main.py).

The deterministic layer uses Python regular expressions via re.search.
The single registered pattern uses only these constructs: literal text,
named groups of the shape (?P<name>CLASS+) possibly preceded by literal
text inside the group, and greedy .* gaps.  We embed exactly that
fragment: RElem below is one element of a pattern, a pattern is a list
of elements, and matchElems implements greedy matching with
backtracking (longest candidate first, exactly the order the Python
backtracking engine explores for these constructs).  searchFrom
implements re.search: the pattern is tried at every start position,
leftmost first, so a match anywhere inside the message counts.
-/

namespace IntelliOS

/-- One element of an embedded regular expression.  lit is literal
text; group gname gpre cls is a named capturing group matching gpre
followed by a nonempty run of characters satisfying cls, i.e.
(?P<gname>gpre CLASS+); dotstar is greedy .* (any run of
non-newline characters). -/
inductive RElem
| lit (chars : List Char)
| group (gname : String) (gpre : List Char) (cls : Char → Bool)
| dotstar

/-- Characters matched by the dot: anything except a newline. -/
def notNl (c : Char) : Bool := !(c == '\n')

/-- Match a literal character list against the front of the input,
returning the remaining input on success. -/
def matchLit : List Char → List Char → Option (List Char)
| [], s => some s
| _ :: _, [] => none
| c :: cs, d :: ds => if c = d then matchLit cs ds else none

/-- Length of the maximal run of characters satisfying p at the front
of the input (the greedy amount a quantifier over p consumes first). -/
def runLen (p : Char → Bool) : List Char → Nat
| [] => 0
| c :: cs => if p c then runLen p cs + 1 else 0

/-- Backtracking order of a greedy star: try the candidate consumption
lengths n, n-1, ..., 0, first success wins. -/
def tryDown (f : Nat → Option α) : Nat → Option α
| 0 => f 0
| k + 1 =>
  match f (k + 1) with
  | some a => some a
  | none => tryDown f k

/-- Backtracking order of a greedy plus: try the candidate consumption
lengths n, n-1, ..., 1, first success wins (a plus consumes at least
one character). -/
def tryDownPos (f : Nat → Option α) : Nat → Option α
| 0 => none
| k + 1 =>
  match f (k + 1) with
  | some a => some a
  | none => tryDownPos f k

/-- Greedy backtracking matcher for a pattern against a prefix of the
input, returning the named-group captures of the first (greedy-order)
match.  The fuel argument only serves structural recursion; any fuel
at least the pattern length gives the real answer (matchPattern
below). -/
def matchElems : Nat → List RElem → List Char → Option (List (String × String))
| _, [], _ => some []
| 0, _ :: _, _ => none
| fuel + 1, RElem.lit l :: rest, s =>
  match matchLit l s with
  | some s₂ => matchElems fuel rest s₂
  | none => none
| fuel + 1, RElem.group gname gpre cls :: rest, s =>
  match matchLit gpre s with
  | some s₂ =>
    tryDownPos (fun k =>
      match matchElems fuel rest (s₂.drop k) with
      | some g => some ((gname, (gpre ++ s₂.take k).asString) :: g)
      | none => none) (runLen cls s₂)
  | none => none
| fuel + 1, RElem.dotstar :: rest, s =>
  tryDown (fun k => matchElems fuel rest (s.drop k)) (runLen notNl s)

/-- Match a whole pattern against a prefix of the input. -/
def matchPattern (p : List RElem) (s : List Char) : Option (List (String × String)) :=
  matchElems p.length p s

/-- re.search: try the pattern at every start position of the input,
leftmost match first. -/
def searchFrom (p : List RElem) : List Char → Option (List (String × String))
| [] => matchPattern p []
| c :: t =>
  match matchPattern p (c :: t) with
  | some g => some g
  | none => searchFrom p t

/-- A structured record as produced by the parsers: a Python dict
whose keys map to either a string or None. -/
abbrev Dict := List (String × Option String)

/-- One entry of PARSER_REGISTRY in regex_parsers.py: a provider name,
a compiled regular expression, and a handler turning the match's named
groups into a structured dict. -/
structure ParseRule where
  provider_name : String
  regex : List RElem
  handler : List (String × String) → Dict

/-- Word-or-dot characters, the class written in the source pattern as
a backslash-w together with the dot (ASCII reading of the word
class). -/
def wordDotChar (c : Char) : Bool := c.isAlphanum || c == '_' || c == '.'

/-- Hexadecimal digits, the class written 0-9a-fA-F in the source
pattern. -/
def hexChar (c : Char) : Bool := c.isDigit || ('a' ≤ c && c ≤ 'f') || ('A' ≤ c && c ≤ 'F')

/-- The compiled pattern of the Application Error rule, from
regex_parsers.py: three literal sections, the named groups app_name
and module_name over word-or-dot characters, greedy gaps between the
sections, and the named group error_code matching 0x followed by hex
digits.  re.compile runs once, here: the pattern is static data, so no
compilation can happen (or fail) during parsing. -/
def appErrorRegex : List RElem :=
  [RElem.lit "Faulting application name: ".data,
   RElem.group "app_name" [] wordDotChar,
   RElem.lit ", ".data,
   RElem.dotstar,
   RElem.lit "Faulting module name: ".data,
   RElem.group "module_name" [] wordDotChar,
   RElem.lit ", ".data,
   RElem.dotstar,
   RElem.lit "Exception code: ".data,
   RElem.group "error_code" "0x".data hexChar]

/-- handle_app_error from regex_parsers.py: mechanically copies the
named groups of the match into the output dict (dict.get semantics:
a missing group gives None). -/
def handle_app_error (groups : List (String × String)) : Dict :=
  [("event_type", some "application_crash"),
   ("app_name", groups.lookup "app_name"),
   ("module_name", groups.lookup "module_name"),
   ("error_code", groups.lookup "error_code")]

/-- The Application Error rule of PARSER_REGISTRY. -/
def appErrorRule : ParseRule :=
  { provider_name := "Application Error", regex := appErrorRegex, handler := handle_app_error }

/-- PARSER_REGISTRY from regex_parsers.py: the ordered list of
registered high-precision rules (the source registers one rule). -/
def PARSER_REGISTRY : List ParseRule := [appErrorRule]

/-- The loop body of parse_with_regex, over an arbitrary registry: scan
the rules in order; for each rule whose provider_name equals the
event's provider, run regex.search on the message; the first rule
whose search succeeds returns its handler's dict; otherwise None. -/
def parse_with_regexR : List ParseRule → String → List Char → Option Dict
| [], _, _ => none
| r :: rs, pv, msg =>
  if r.provider_name == pv then
    match searchFrom r.regex msg with
    | some m => some (r.handler m)
    | none => parse_with_regexR rs pv msg
  else parse_with_regexR rs pv msg

/-- parse_with_regex from regex_parsers.py: the scan above over
PARSER_REGISTRY; returns a dict on success and None on a miss. -/
def parse_with_regex (provider : String) (message : String) : Option Dict :=
  parse_with_regexR PARSER_REGISTRY provider message.data

/-- The specification reading of try_parse, written from the claim:
restrict the registry to the rules whose provider matches (keeping
registration order), and return the record produced by the first rule
whose pattern matches the message. -/
def try_parse_spec (reg : List ParseRule) (pv : String) (msg : List Char) : Option Dict :=
  (reg.filter (fun r => r.provider_name == pv)).findSome?
    (fun r => (searchFrom r.regex msg).map r.handler)

/-- The enumerated event_type values of the ActivityLog schema in
config.py (the Literal type). -/
inductive EventType
| file_interaction
| app_lifecycle
| system_event
| unknown
deriving DecidableEq

/-- The string form of each enumerated event_type value. -/
def EventType.toStr : EventType → String
| EventType.file_interaction => "file_interaction"
| EventType.app_lifecycle => "app_lifecycle"
| EventType.system_event => "system_event"
| EventType.unknown => "unknown"

/-- Parse a string into the enumerated set, rejecting anything
outside it. -/
def eventTypeOfString (s : String) : Option EventType :=
  if s == "file_interaction" then some EventType.file_interaction
  else if s == "app_lifecycle" then some EventType.app_lifecycle
  else if s == "system_event" then some EventType.system_event
  else if s == "unknown" then some EventType.unknown
  else none

/-- The ActivityLog schema from config.py: event_type restricted to
the enumerated set, optional app_name and file_path, required
summary. -/
structure ActivityLog where
  event_type : EventType
  app_name : Option String
  file_path : Option String
  summary : String
deriving DecidableEq

/-- An untyped JSON scalar as the model service may return it. -/
inductive JVal
| str (s : String)
| num (n : Int)
| null
deriving DecidableEq

/-- A raw JSON object returned by the model service. -/
abbrev RawJson := List (String × JVal)

/-- Validation of an optional string field of the schema: missing or
null gives None (the declared default), a string is accepted, a value
of any other type is a validation failure. -/
def validateStrOpt : Option JVal → Option (Option String)
| none => some none
| some JVal.null => some none
| some (JVal.str s) => some (some s)
| some (JVal.num _) => none

/-- Modelled from the spec: the pydantic validation that the
instructor-patched client applies to the service reply before it is
accepted (the pydantic and instructor library code is external to the
repository; the schema it enforces is the ActivityLog declaration in
config.py).  event_type must be a string inside the enumerated set,
summary must be a string and is required, app_name and file_path are
optional strings; any missing required field, wrong type, or value
outside the enumerated set fails validation, which raises inside the
client call. -/
def validateActivityLog (raw : RawJson) : Option ActivityLog :=
  match raw.lookup "event_type" with
  | some (JVal.str e) =>
    match eventTypeOfString e with
    | some et =>
      match validateStrOpt (raw.lookup "app_name"),
            validateStrOpt (raw.lookup "file_path"),
            raw.lookup "summary" with
      | some an, some fp, some (JVal.str sm) =>
        some { event_type := et, app_name := an, file_path := fp, summary := sm }
      | _, _, _ => none
    | none => none
  | _ => none

/-- response.dict() of a validated ActivityLog: every schema field is
present, optional fields carry None when absent. -/
def activityLogToDict (a : ActivityLog) : Dict :=
  [("event_type", some a.event_type.toStr),
   ("app_name", a.app_name),
   ("file_path", a.file_path),
   ("summary", some a.summary)]

/-- parse_with_llm from llm_layer.py.  The argument is the outcome of
the single outbound client.chat.completions.create call for the
message: an error value when the call raises or times out (including a
pydantic validation error surfaced by instructor, which we keep
separate as the ok-but-invalid case below), an ok value carrying the
service's raw reply.  The whole call sits in a try block: any raise is
caught and None is returned; a reply that fails schema validation
raises inside the client call and so also yields None; only a fully
validated reply is returned, as its response.dict(). -/
def parse_with_llm (reply : Except String RawJson) : Option Dict :=
  match reply with
  | Except.error _ => none
  | Except.ok raw =>
    match validateActivityLog raw with
    | some a => some (activityLogToDict a)
    | none => none

/-- fetch_windows_event_logs from log_fetcher.py.  The argument models
the successive outcomes of the EvtQuery iteration: each step either
yields a (provider, message) pair or raises.  The whole for loop sits
in a try block whose except clause prints the error and falls off the
end of the generator, so the events before a raise are yielded and
everything after it is dropped; no exception propagates to the
caller and no retry is made. -/
def fetch_windows_event_logs : List (Except String (String × String)) → List (String × String)
| [] => []
| Except.ok ev :: rest => ev :: fetch_windows_event_logs rest
| Except.error _ :: _ => []

/-- One iteration of the funnel loop in process_logs (main.py) for one
(provider, message) event: try the regex layer first; only on a miss
fall back to parse_with_llm.  The second component counts the outbound
model calls made for the event (parse_with_llm makes exactly one
client call per invocation, whatever its outcome).  svc maps a message
to the outcome of that call. -/
def processEvent (svc : String → Except String RawJson) (ev : String × String) :
    Option Dict × Nat :=
  match parse_with_regex ev.1 ev.2 with
  | some r => (some r, 0)
  | none => (parse_with_llm (svc ev.2), 1)

/-- process_logs from main.py: run the funnel over the fetched events
in order, appending each successful dict to parsed_logs (the dicts
produced are never empty, so Python truthiness here is exactly
not-None); an event that misses both layers contributes nothing.  The
second component is the total number of outbound model calls. -/
def process_logs (svc : String → Except String RawJson) :
    List (String × String) → List Dict × Nat
| [] => ([], 0)
| ev :: rest =>
  let hd := processEvent svc ev
  let tl := process_logs svc rest
  (hd.1.toList ++ tl.1, hd.2 + tl.2)

/-- The classification outcome of Step 4 of the revised flow in
context.md: either the session is classified under the best-scoring
existing topic, or a new topic is proposed. -/
inductive Decision
| matched
| new_candidate
deriving DecidableEq

/-- The decision rule of Step 3 and Step 4 of the revised flow in
context.md: the semantic search returns similarity scores for the
stored topics; Scenario A (match) applies when the top score is above
the confidence threshold, Scenario B (new topic) applies when no topic
score is above the threshold — in particular when no topics exist. -/
def classify_decision (scores : List ℚ) (match_threshold : ℚ) : Decision :=
  if scores.any (fun s => match_threshold < s) then Decision.matched
  else Decision.new_candidate

/-- The topic store: topics keyed by their normalized name, plus the
next fresh identifier. -/
structure TopicStore where
  topics : List (String × Nat)
  nextId : Nat
deriving DecidableEq

/-- The empty topic store. -/
def emptyTopicStore : TopicStore := { topics := [], nextId := 0 }

/-- Modelled from the spec: Topic Store creation, absent from the
repository sources, per the mutual-exclusion discipline of the spec —
create_topic runs as a conditional insert-if-absent keyed by the
normalized candidate name inside a single-writer critical section; a
worker that finds the name already present re-queries and reuses the
winner's topic identifier. -/
def create_topic (st : TopicStore) (name : String) : Nat × TopicStore :=
  match st.topics.lookup name with
  | some tid => (tid, st)
  | none =>
    (st.nextId, { topics := st.topics ++ [(name, st.nextId)], nextId := st.nextId + 1 })

/-- A serialization of n workers each running create_topic on the same
candidate name: under the single-writer critical section, any
concurrent execution of the n critical sections is equivalent to some
serial order, which this function computes.  Returns the identifier
each worker obtained and the final store. -/
def run_creates (st : TopicStore) (name : String) : Nat → List Nat × TopicStore
| 0 => ([], st)
| n + 1 =>
  let r := create_topic st name
  let rest := run_creates r.2 name n
  (r.1 :: rest.1, rest.2)

/-- A model service that always fails (raises or times out). -/
def svcFail : String → Except String RawJson := fun _ => Except.error "service unavailable"

/-- The scenario message of the Application Error rule. -/
def demoMsg : String :=
  "Faulting application name: app.exe, Faulting module name: k.dll, Exception code: 0xC0000005"

/-- The dict handle_app_error produces for the scenario message. -/
def demoDict : Dict :=
  [("event_type", some "application_crash"),
   ("app_name", some "app.exe"),
   ("module_name", some "k.dll"),
   ("error_code", some "0xC0000005")]

/-- Declarative matching semantics: ElemsMatch p s holds when the
pattern p matches some prefix of s (a literal consumes itself, a group
consumes its literal part plus a nonempty run of its class, dotstar
consumes any run of non-newline characters). -/
inductive ElemsMatch : List RElem → List Char → Prop
| nil (s : List Char) : ElemsMatch [] s
| lit (l : List Char) (rest : List RElem) (s : List Char) :
    ElemsMatch rest s → ElemsMatch (RElem.lit l :: rest) (l ++ s)
| group (gname : String) (gpre : List Char) (cls : Char → Bool)
    (run : List Char) (rest : List RElem) (s : List Char) :
    run ≠ [] → (∀ c ∈ run, cls c = true) → ElemsMatch rest s →
    ElemsMatch (RElem.group gname gpre cls :: rest) (gpre ++ (run ++ s))
| dotstar (taken : List Char) (rest : List RElem) (s : List Char) :
    (∀ c ∈ taken, notNl c = true) → ElemsMatch rest s →
    ElemsMatch (RElem.dotstar :: rest) (taken ++ s)

theorem matchLit_append (l s : List Char) : matchLit l (l ++ s) = some s := by
  induction l with
  | nil => rfl
  | cons c cs ih => simp [matchLit, ih]

theorem matchLit_eq_some {l s s₂ : List Char} (h : matchLit l s = some s₂) :
    s = l ++ s₂ := by
  induction l generalizing s with
  | nil => simpa [matchLit] using h
  | cons c cs ih =>
    cases s with
    | nil => simp [matchLit] at h
    | cons d ds =>
      by_cases hcd : c = d
      · subst hcd
        simp [matchLit] at h
        simpa using ih h
      · simp [matchLit, hcd] at h

theorem runLen_le_length (p : Char → Bool) (s : List Char) : runLen p s ≤ s.length := by
  induction s with
  | nil => simp [runLen]
  | cons c cs ih =>
    by_cases h : p c
    · simpa [runLen, h] using ih
    · simp [runLen, h]

theorem le_runLen_append {p : Char → Bool} (run s : List Char)
    (h : ∀ c ∈ run, p c = true) : run.length ≤ runLen p (run ++ s) := by
  induction run with
  | nil => simp
  | cons c cs ih =>
    have hc : p c = true := h c (List.mem_cons_self c cs)
    have hcs : ∀ x ∈ cs, p x = true := fun x hx => h x (List.mem_cons_of_mem c hx)
    simpa [runLen, hc] using ih hcs

theorem runLen_take {p : Char → Bool} (k : Nat) (s : List Char)
    (h : k ≤ runLen p s) : ∀ c ∈ s.take k, p c = true := by
  induction s generalizing k with
  | nil => simp
  | cons c cs ih =>
    cases k with
    | zero => simp
    | succ k =>
      by_cases hc : p c
      · have hk : k ≤ runLen p cs := by
          have := h
          simp [runLen, hc] at this
          omega
        intro x hx
        rcases List.mem_cons.mp (by simpa using hx) with hx0 | hx1
        · simpa [hx0] using hc
        · exact ih k hk x hx1
      · simp [runLen, hc] at h

theorem tryDown_isSome_of {f : Nat → Option α} {k : Nat} (n : Nat)
    (hk : k ≤ n) (h : (f k).isSome) : (tryDown f n).isSome := by
  induction n with
  | zero =>
    have : k = 0 := Nat.le_zero.mp hk
    subst this
    simpa [tryDown] using h
  | succ n ih =>
    by_cases hs : (f (n + 1)).isSome
    · rcases Option.isSome_iff_exists.mp hs with ⟨a, ha⟩
      simp [tryDown, ha]
    · have hnone : f (n + 1) = none := Option.not_isSome_iff_eq_none.mp hs
      rcases Nat.lt_or_ge k (n + 1) with hlt | hge
      · have : (tryDown f n).isSome := ih (Nat.lt_succ_iff.mp hlt)
        simpa [tryDown, hnone] using this
      · have : k = n + 1 := Nat.le_antisymm hk hge
        subst this
        rw [hnone] at h
        simp at h

theorem tryDown_sound {f : Nat → Option α} {a : α} (n : Nat)
    (h : tryDown f n = some a) : ∃ k, k ≤ n ∧ f k = some a := by
  induction n with
  | zero => exact ⟨0, Nat.le_refl 0, by simpa [tryDown] using h⟩
  | succ n ih =>
    rw [tryDown] at h
    cases hf : f (n + 1) with
    | some b =>
      rw [hf] at h
      exact ⟨n + 1, Nat.le_refl _, by simpa [hf] using h⟩
    | none =>
      rw [hf] at h
      rcases ih h with ⟨k, hk, hfk⟩
      exact ⟨k, Nat.le_succ_of_le hk, hfk⟩

theorem tryDownPos_isSome_of {f : Nat → Option α} {k : Nat} (n : Nat)
    (hk1 : 1 ≤ k) (hk : k ≤ n) (h : (f k).isSome) : (tryDownPos f n).isSome := by
  induction n with
  | zero => omega
  | succ n ih =>
    by_cases hs : (f (n + 1)).isSome
    · rcases Option.isSome_iff_exists.mp hs with ⟨a, ha⟩
      simp [tryDownPos, ha]
    · have hnone : f (n + 1) = none := Option.not_isSome_iff_eq_none.mp hs
      rcases Nat.lt_or_ge k (n + 1) with hlt | hge
      · have : (tryDownPos f n).isSome := ih (Nat.lt_succ_iff.mp hlt)
        simpa [tryDownPos, hnone] using this
      · have : k = n + 1 := Nat.le_antisymm hk hge
        subst this
        rw [hnone] at h
        simp at h

theorem tryDownPos_sound {f : Nat → Option α} {a : α} (n : Nat)
    (h : tryDownPos f n = some a) : ∃ k, 1 ≤ k ∧ k ≤ n ∧ f k = some a := by
  induction n with
  | zero => simp [tryDownPos] at h
  | succ n ih =>
    rw [tryDownPos] at h
    cases hf : f (n + 1) with
    | some b =>
      rw [hf] at h
      exact ⟨n + 1, Nat.succ_le_succ (Nat.zero_le n), Nat.le_refl _, by simpa [hf] using h⟩
    | none =>
      rw [hf] at h
      rcases ih h with ⟨k, hk1, hk, hfk⟩
      exact ⟨k, hk1, Nat.le_succ_of_le hk, hfk⟩

theorem matchElems_sound : ∀ (fuel : Nat) (p : List RElem) (s : List Char),
    (matchElems fuel p s).isSome → ElemsMatch p s := by
  intro fuel
  induction fuel with
  | zero =>
    intro p s h
    cases p with
    | nil => exact ElemsMatch.nil s
    | cons e rest => simp [matchElems] at h
  | succ fuel ih =>
    intro p s h
    cases p with
    | nil => exact ElemsMatch.nil s
    | cons e rest =>
      cases e with
      | lit l =>
        rw [matchElems] at h
        cases hl : matchLit l s with
        | none => rw [hl] at h; simp at h
        | some s₂ =>
          rw [hl] at h
          have hrest := ih rest s₂ h
          have hs : s = l ++ s₂ := matchLit_eq_some hl
          rw [hs]
          exact ElemsMatch.lit l rest s₂ hrest
      | group gname gpre cls =>
        rw [matchElems] at h
        cases hl : matchLit gpre s with
        | none => rw [hl] at h; simp at h
        | some s₂ =>
          rw [hl] at h
          rcases Option.isSome_iff_exists.mp h with ⟨g, hg⟩
          rcases tryDownPos_sound _ hg with ⟨k, hk1, hk, hfk⟩
          cases hrec : matchElems fuel rest (s₂.drop k) with
          | none => rw [hrec] at hfk; simp at hfk
          | some g₂ =>
            have hrest := ih rest (s₂.drop k) (by simp [hrec])
            have hs : s = gpre ++ s₂ := matchLit_eq_some hl
            have hrun : ∀ c ∈ s₂.take k, cls c = true := runLen_take k s₂ hk
            have hne : s₂.take k ≠ [] := by
              have hlen : k ≤ s₂.length := Nat.le_trans hk (runLen_le_length cls s₂)
              have : (s₂.take k).length = k := by
                simpa using Nat.min_eq_left hlen
              intro hempty
              rw [hempty] at this
              simp at this
              omega
            have hsplit : s₂ = s₂.take k ++ s₂.drop k := (List.take_append_drop k s₂).symm
            rw [hs, hsplit]
            exact ElemsMatch.group gname gpre cls (s₂.take k) rest (s₂.drop k) hne hrun hrest
      | dotstar =>
        rw [matchElems] at h
        rcases Option.isSome_iff_exists.mp h with ⟨g, hg⟩
        rcases tryDown_sound _ hg with ⟨k, hk, hfk⟩
        have hrest := ih rest (s.drop k) (by simp [hfk])
        have hrun : ∀ c ∈ s.take k, notNl c = true := runLen_take k s hk
        have hsplit : s = s.take k ++ s.drop k := (List.take_append_drop k s).symm
        rw [hsplit]
        exact ElemsMatch.dotstar (s.take k) rest (s.drop k) hrun hrest

theorem matchElems_complete {p : List RElem} {s : List Char} (hm : ElemsMatch p s) :
    ∀ fuel, p.length ≤ fuel → (matchElems fuel p s).isSome := by
  induction hm with
  | nil s => intro fuel _; cases fuel <;> simp [matchElems]
  | lit l rest s hrest ih =>
    intro fuel hfuel
    cases fuel with
    | zero => simp at hfuel
    | succ fuel =>
      have hf : rest.length ≤ fuel := by simpa using hfuel
      rw [matchElems, matchLit_append]
      exact ih fuel hf
  | group gname gpre cls run rest s hne hcls hrest ih =>
    intro fuel hfuel
    cases fuel with
    | zero => simp at hfuel
    | succ fuel =>
      have hf : rest.length ≤ fuel := by simpa using hfuel
      rw [matchElems, matchLit_append]
      have hk1 : 1 ≤ run.length := by
        cases run with
        | nil => exact absurd rfl hne
        | cons c cs => simp
      have hkmax : run.length ≤ runLen cls (run ++ s) := le_runLen_append run s hcls
      apply tryDownPos_isSome_of _ hk1 hkmax
      have hdrop : (run ++ s).drop run.length = s := by
        simp
      rw [hdrop]
      have := ih fuel hf
      rcases Option.isSome_iff_exists.mp this with ⟨g, hg⟩
      simp [hg]
  | dotstar taken rest s htaken hrest ih =>
    intro fuel hfuel
    cases fuel with
    | zero => simp at hfuel
    | succ fuel =>
      have hf : rest.length ≤ fuel := by simpa using hfuel
      rw [matchElems]
      have hkmax : taken.length ≤ runLen notNl (taken ++ s) := le_runLen_append taken s htaken
      apply tryDown_isSome_of _ hkmax
      have hdrop : (taken ++ s).drop taken.length = s := by
        simp
      rw [hdrop]
      exact ih fuel hf

theorem elemsMatch_append {p : List RElem} {s : List Char} (hm : ElemsMatch p s)
    (t : List Char) : ElemsMatch p (s ++ t) := by
  induction hm with
  | nil s => exact ElemsMatch.nil (s ++ t)
  | lit l rest s _ ih =>
    rw [List.append_assoc]
    exact ElemsMatch.lit l rest (s ++ t) ih
  | group gname gpre cls run rest s hne hcls _ ih =>
    rw [List.append_assoc, List.append_assoc]
    exact ElemsMatch.group gname gpre cls run rest (s ++ t) hne hcls ih
  | dotstar taken rest s htaken _ ih =>
    rw [List.append_assoc]
    exact ElemsMatch.dotstar taken rest (s ++ t) htaken ih

theorem searchFrom_isSome_of_drop {p : List RElem} : ∀ (s : List Char) (i : Nat),
    (matchPattern p (s.drop i)).isSome → (searchFrom p s).isSome := by
  intro s
  induction s with
  | nil =>
    intro i h
    simpa [searchFrom] using (by simpa using h)
  | cons c t ih =>
    intro i h
    cases i with
    | zero =>
      rw [searchFrom]
      rcases Option.isSome_iff_exists.mp (by simpa using h) with ⟨g, hg⟩
      simp [hg]
    | succ i =>
      rw [searchFrom]
      cases hm : matchPattern p (c :: t) with
      | some g => simp
      | none =>
        have := ih i (by simpa using h)
        simpa using this

theorem searchFrom_isSome_of_elemsMatch {p : List RElem} {s : List Char} (i : Nat)
    (hm : ElemsMatch p (s.drop i)) : (searchFrom p s).isSome :=
  searchFrom_isSome_of_drop s i
    (matchElems_complete hm p.length (Nat.le_refl _))

theorem process_logs_cons (svc : String → Except String RawJson) (ev : String × String)
    (rest : List (String × String)) :
    process_logs svc (ev :: rest) =
      ((processEvent svc ev).1.toList ++ (process_logs svc rest).1,
       (processEvent svc ev).2 + (process_logs svc rest).2) := rfl

theorem processEvent_calls (svc : String → Except String RawJson) (ev : String × String) :
    (processEvent svc ev).2 =
      if (parse_with_regex ev.1 ev.2).isNone = true then 1 else 0 := by
  unfold processEvent
  cases h : parse_with_regex ev.1 ev.2 <;> simp [h]

theorem process_logs_calls (svc : String → Except String RawJson) :
    ∀ events : List (String × String),
      (process_logs svc events).2 =
        events.countP (fun ev => (parse_with_regex ev.1 ev.2).isNone) := by
  intro events
  induction events with
  | nil => rfl
  | cons ev rest ih =>
    rw [process_logs_cons, List.countP_cons]
    simp only [processEvent_calls, ih]
    by_cases h : (parse_with_regex ev.1 ev.2).isNone = true
    · simp [h]
      omega
    · simp [h]

/-- C1: parse_with_regex scans the registered rules in registration
order restricted to the rules whose provider field equals the event's
provider, runs the compiled pattern's search against the message for
each candidate, and returns the dict produced by the first rule that
matches; when no candidate matches it returns None (a normal miss, not
an error — the function is total, and the patterns are static data
compiled once when the registry is defined, so no pattern compilation
happens at parse time).  Stated as: the registry scan equals the
specification-shaped first-match-over-filtered-rules function, for
every registry, provider and message. -/
theorem parse_with_regex_first_match :
    ∀ (reg : List ParseRule) (pv : String) (msg : List Char),
      parse_with_regexR reg pv msg = try_parse_spec reg pv msg := by
  intro reg pv msg
  induction reg with
  | nil => rfl
  | cons r rs ih =>
    rw [parse_with_regexR]
    by_cases hp : (r.provider_name == pv) = true
    · rw [if_pos hp]
      rw [try_parse_spec, List.filter_cons, if_pos hp, List.findSome?_cons]
      cases hs : searchFrom r.regex msg with
      | some m => simp [hs]
      | none =>
        simp only [hs, Option.map_none']
        rw [ih, try_parse_spec]
    · rw [if_neg hp]
      rw [try_parse_spec, List.filter_cons, if_neg hp]
      rw [ih, try_parse_spec]

/-- C2: the constrained extractor accepts a reply of the model service
only when it fully validates against the ActivityLog schema; a call
that raises or times out, and a reply with a missing required field, a
wrongly typed field, or an event_type outside the enumerated set
(such as random_new_value), all make the extraction return None, and
any returned dict is exactly the dict of a schema-validated record —
never partially filled or defaulted. -/
theorem llm_extraction_rejects_invalid :
    (∀ e : String, parse_with_llm (Except.error e) = none) ∧
    (∀ raw : RawJson, validateActivityLog raw = none →
      parse_with_llm (Except.ok raw) = none) ∧
    (∀ (reply : Except String RawJson) (d : Dict), parse_with_llm reply = some d →
      ∃ raw a, reply = Except.ok raw ∧ validateActivityLog raw = some a ∧
        d = activityLogToDict a) ∧
    parse_with_llm (Except.ok
      [("event_type", JVal.str "random_new_value"), ("summary", JVal.str "log text")]) = none := by
  refine ⟨fun e => rfl, fun raw h => by simp [parse_with_llm, h], ?_, by decide⟩
  intro reply d h
  cases reply with
  | error e => simp [parse_with_llm] at h
  | ok raw =>
    cases hv : validateActivityLog raw with
    | none => simp [parse_with_llm, hv] at h
    | some a =>
      refine ⟨raw, a, rfl, hv, ?_⟩
      have := h
      simp [parse_with_llm, hv] at this
      exact this.symm

/-- Witness for C2: a reply whose event_type has the wrong type is
rejected, and a reply that validates is returned as exactly the
validated record's dict. -/
theorem llm_extraction_rejects_invalid_witness :
    parse_with_llm (Except.ok [("event_type", JVal.num 3)]) = none ∧
    ∃ raw a,
      (Except.ok [("event_type", JVal.str "system_event"), ("summary", JVal.str "s")] :
        Except String RawJson) = Except.ok raw ∧
      validateActivityLog raw = some a ∧
      ([("event_type", some "system_event"), ("app_name", (none : Option String)),
        ("file_path", (none : Option String)), ("summary", some "s")] : Dict) =
        activityLogToDict a :=
  ⟨llm_extraction_rejects_invalid.2.1 [("event_type", JVal.num 3)] (by decide),
   llm_extraction_rejects_invalid.2.2.1
     (Except.ok [("event_type", JVal.str "system_event"), ("summary", JVal.str "s")])
     [("event_type", some "system_event"), ("app_name", none),
      ("file_path", none), ("summary", some "s")] (by decide)⟩

/-- C3: the pipeline orchestrator makes exactly one outbound model
call per event that misses the deterministic layer and none for an
event the deterministic layer parses; in particular a batch whose
events all match registered patterns makes zero outbound model
calls. -/
theorem deterministic_match_makes_no_llm_call :
    ∀ (svc : String → Except String RawJson) (events : List (String × String)),
      (process_logs svc events).2 =
        events.countP (fun ev => (parse_with_regex ev.1 ev.2).isNone) ∧
      ((∀ ev ∈ events, (parse_with_regex ev.1 ev.2).isSome) →
        (process_logs svc events).2 = 0) := by
  intro svc events
  refine ⟨process_logs_calls svc events, fun hall => ?_⟩
  rw [process_logs_calls svc events]
  rw [List.countP_eq_zero]
  intro ev hev
  have := hall ev hev
  simp [Option.isNone_iff_eq_none]
  exact Option.isSome_iff_ne_none.mp this

/-- Witness for C3: the scenario batch is fully matched by the regex
layer and triggers zero model calls. -/
theorem deterministic_match_makes_no_llm_call_witness :
    (process_logs svcFail [("Application Error", demoMsg)]).2 = 0 :=
  (deterministic_match_makes_no_llm_call svcFail [("Application Error", demoMsg)]).2
    (by decide)

/-- C4 counterexample: a candidate whose similarity score is exactly
equal to the configured threshold is classified as a new-topic
candidate, not as matched — the decision rule of the source (match
only when the top score is above the threshold) is strict, so the
claimed inclusive boundary fails. -/
theorem threshold_tie_is_new_candidate_cex :
    classify_decision [(9 : ℚ)/10] ((9 : ℚ)/10) = Decision.new_candidate ∧
    Decision.new_candidate ≠ Decision.matched := by
  constructor
  · norm_num [classify_decision]
  · decide

/-- C4 (amended): a candidate topic is classified as matched exactly
when its similarity score is strictly above the configured threshold;
a score equal to the threshold or below it yields new_candidate, and
so does an empty topic store. -/
theorem classify_matched_iff_strictly_above :
    ∀ (scores : List ℚ) (th : ℚ),
      (classify_decision scores th = Decision.matched ↔ ∃ s ∈ scores, th < s) ∧
      classify_decision [] th = Decision.new_candidate := by
  intro scores th
  constructor
  · have hstep : classify_decision scores th = Decision.matched ↔
        scores.any (fun s => decide (th < s)) = true := by
      unfold classify_decision
      split
      next h => simp [h]
      next h => simp [h]
    rw [hstep, List.any_eq_true]
    simp
  · rfl

/-- C5 counterexample: on the scenario message the deterministic parse
succeeds, but the record it returns is the handler's dict, which
carries no extraction_method field at all — so the claimed
extraction_method = deterministic field is absent. -/
theorem app_error_demo_no_extraction_method_cex :
    parse_with_regex "Application Error" demoMsg = some demoDict ∧
    demoDict.lookup "extraction_method" = none := by
  constructor
  · decide
  · rfl

/-- C5 (amended): for the scenario message with provider Application
Error, the deterministic parse succeeds with event_type
application_crash, app_name app.exe, module_name k.dll and error_code
0xC0000005, and the pipeline makes no model call for this event; the
returned dict has exactly those four fields and no extraction_method
field. -/
theorem app_error_demo_parse_amended :
    ∀ svc : String → Except String RawJson,
      process_logs svc [("Application Error", demoMsg)] = ([demoDict], 0) := by
  intro svc
  have h : parse_with_regex "Application Error" demoMsg = some demoDict := by decide
  simp [process_logs_cons, process_logs, processEvent, h]

/-- C6: evaluation of the pipeline at an event that misses the regex
layer and whose model call fails: process_logs drops the event
entirely — parsed_logs gains no entry for it, nothing is marked
Unresolved and nothing is queued for review — and no record produced
by either layer carries an extraction_method provenance field. -/
theorem unresolved_event_silently_dropped_eval :
    process_logs svcFail
      [("Microsoft-Windows-Kernel-Power", "The system is entering sleep.")] = ([], 1) ∧
    (∀ g : List (String × String), (handle_app_error g).lookup "extraction_method" = none) ∧
    (∀ a : ActivityLog, (activityLogToDict a).lookup "extraction_method" = none) := by
  refine ⟨by decide, fun g => rfl, fun a => rfl⟩

/-- C7 counterexample: a reader failure in the middle of a batch makes
the fetch return only the events before the failure — the event after
the failure is lost for the batch, with no retry. -/
theorem fetch_stops_after_reader_error_cex :
    fetch_windows_event_logs
        [Except.ok ("Application", "m1"), Except.error "RPC server unavailable",
         Except.ok ("Application", "m2")] = [("Application", "m1")] ∧
    ("Application", "m2") ∉ fetch_windows_event_logs
        [Except.ok ("Application", "m1"), Except.error "RPC server unavailable",
         Except.ok ("Application", "m2")] := by
  constructor
  · rfl
  · decide

/-- C7 (amended): when the event reader raises during log fetching the
exception is caught and logged and the fetch returns normally with
exactly the events read before the failure — the failure is not fatal
to the caller, but no retry or backoff occurs and the remaining events
of the batch are not delivered; a batch with no failure is delivered
in full. -/
theorem fetch_prefix_before_error_amended :
    (∀ (pre : List (String × String)) (e : String)
        (post : List (Except String (String × String))),
      fetch_windows_event_logs (pre.map Except.ok ++ Except.error e :: post) = pre) ∧
    (∀ evs : List (String × String),
      fetch_windows_event_logs (evs.map Except.ok) = evs) := by
  constructor
  · intro pre e post
    induction pre with
    | nil => rfl
    | cons x xs ih => simpa [fetch_windows_event_logs] using ih
  · intro evs
    induction evs with
    | nil => rfl
    | cons x xs ih => simpa [fetch_windows_event_logs] using ih

/-- C8 counterexample: processing the same raw event twice produces
two entries in parsed_logs, not at most one — there is no
identity-keyed deduplication. -/
theorem duplicate_event_duplicated_cex :
    (process_logs svcFail
        [("Application Error", demoMsg), ("Application Error", demoMsg)]).1 =
      [demoDict, demoDict] ∧
    ¬ ((process_logs svcFail
        [("Application Error", demoMsg), ("Application Error", demoMsg)]).1.length ≤ 1) := by
  constructor
  · decide
  · decide

/-- C8 (amended): processing a duplicated event produces exactly twice
the output of processing it once — records are appended per
occurrence with no identity key, so re-processing the same RawEvent
duplicates its ground-truth entry instead of deduplicating it. -/
theorem duplicate_event_two_entries_amended :
    ∀ (svc : String → Except String RawJson) (ev : String × String),
      ((process_logs svc [ev, ev]).1).length = 2 * ((process_logs svc [ev]).1).length := by
  intro svc ev
  simp only [process_logs_cons, process_logs, List.length_append, List.length_nil]
  omega

/-- C9: under the single-writer discipline, any serialization of n + 1
workers concurrently creating the same candidate topic name yields
exactly one stored topic for that name, and every worker obtains the
winner's identifier. -/
theorem concurrent_topic_creation_single_topic :
    ∀ n : Nat,
      run_creates emptyTopicStore "api development" (n + 1) =
        (List.replicate (n + 1) 0,
         { topics := [("api development", 0)], nextId := 1 }) := by
  intro n
  have hloop : ∀ m : Nat,
      run_creates { topics := [("api development", 0)], nextId := 1 } "api development" m =
        (List.replicate m 0, { topics := [("api development", 0)], nextId := 1 }) := by
    intro m
    induction m with
    | zero => rfl
    | succ m ih =>
      rw [run_creates]
      have hcreate : create_topic
          { topics := [("api development", 0)], nextId := 1 } "api development" =
          (0, { topics := [("api development", 0)], nextId := 1 }) := rfl
      rw [hcreate]
      simp only [ih, List.replicate_succ]
  rw [run_creates]
  have hcreate : create_topic emptyTopicStore "api development" =
      (0, { topics := [("api development", 0)], nextId := 1 }) := rfl
  rw [hcreate]
  simp only [hloop, List.replicate_succ]

/-- C10: the deterministic parser uses substring search — whenever a
registered rule's pattern matches anywhere inside the message, parsing
with that rule's provider succeeds, for arbitrary text before and
after the matching part; the whole message need not conform to the
pattern. -/
theorem substring_match_parses_with_surrounding_text :
    ∀ (reg : List ParseRule) (pv : String) (r : ParseRule), r ∈ reg →
      r.provider_name = pv →
      ∀ pre core post : List Char, ElemsMatch r.regex core →
        (parse_with_regexR reg pv (pre ++ core ++ post)).isSome := by
  intro reg pv r hmem hpv pre core post hcore
  have hsearch : (searchFrom r.regex (pre ++ core ++ post)).isSome := by
    apply searchFrom_isSome_of_elemsMatch pre.length
    have hdrop : (pre ++ core ++ post).drop pre.length = core ++ post := by
      rw [List.append_assoc]
      simp
    rw [hdrop]
    exact elemsMatch_append hcore post
  induction reg with
  | nil => simp at hmem
  | cons r₀ rs ih =>
    rw [parse_with_regexR]
    by_cases hp : (r₀.provider_name == pv) = true
    · rw [if_pos hp]
      cases hs : searchFrom r₀.regex (pre ++ core ++ post) with
      | some m => simp
      | none =>
        rcases List.mem_cons.mp hmem with heq | hmem'
        · exfalso
          rw [← heq] at hs
          rw [hs] at hsearch
          simp at hsearch
        · exact ih hmem'
    · rw [if_neg hp]
      rcases List.mem_cons.mp hmem with heq | hmem'
      · exfalso
        apply hp
        rw [← heq, hpv]
        simp
      · exact ih hmem'

/-- Witness for C10: the scenario message embedded inside arbitrary
surrounding text still parses deterministically. -/
theorem substring_match_parses_with_surrounding_text_witness :
    (parse_with_regexR PARSER_REGISTRY "Application Error"
      ("collected entry: ".data ++ demoMsg.data ++ " [end of record]".data)).isSome :=
  substring_match_parses_with_surrounding_text PARSER_REGISTRY "Application Error"
    appErrorRule (List.Mem.head _) rfl
    "collected entry: ".data demoMsg.data " [end of record]".data
    (matchElems_sound appErrorRegex.length appErrorRegex demoMsg.data (by decide))

end IntelliOS
